import Mathlib

/-
Verification of the Nachos storage layer: the file header (filehdr.cc),
the open-file byte-range I/O path (openfile.cc) and the simulated disk
(disk.cc), shallowly embedded as executable Lean functions.

Machine integers are modelled as Int with C semantics for division
(truncation toward zero, Int.tdiv / Int.tmod).  Disk sectors are modelled
as functions from an index to an Int value: for data sectors the index is
a byte offset, for a sector holding an indirect pointer block it is a word
offset.  Each sector in the developments below is only ever read in the
same view it was written in, so this identification is sound.
Uninitialized C arrays are modelled as all-zero functions; no theorem
depends on the value of a byte the source code leaves uninitialized.
-/

namespace Nachos

/-- Modelled from the spec: sector size in bytes (spec section 8; the
header files defining the geometry constants are not part of the sources). -/
def SectorSize : Int := 128

/-- Modelled from the spec: number of direct-pointer slots in a file
header, N1 = 30 (spec section 8). -/
def NumDirect : Nat := 30

/-- Modelled from the spec: number of entries of the indirect block,
N2 = 32 (spec section 8). -/
def NumDirect2 : Nat := 32

/-- Modelled from the spec: sectors per track (external geometry
configuration; the standard Nachos value 32). -/
def SectorsPerTrack : Int := 32

/-- Modelled from the spec: total number of sectors on the simulated disk
(32 tracks of 32 sectors, the standard Nachos value). -/
def NumSectors : Int := 1024

/-- Modelled from the spec: ticks to seek one track (standard Nachos
stats.h value). -/
def SeekTime : Int := 500

/-- Modelled from the spec: ticks for one sector to rotate past the head
(standard Nachos stats.h value). -/
def RotationTime : Int := 500

/-- C integer division: truncation toward zero, as in the C++ sources. -/
def cdiv (a b : Int) : Int := a.tdiv b

/-- C integer remainder, the companion of cdiv. -/
def cmod (a b : Int) : Int := a.tmod b

/-- divRoundUp from the Nachos utility header: (n + s - 1) / s in C. -/
def divRoundUp (n s : Int) : Int := cdiv (n + s - 1) s

/-- divRoundDown from the Nachos utility header: n / s in C. -/
def divRoundDown (n s : Int) : Int := cdiv n s

/-- The free-space bitmap, an external collaborator of the file header
(spec section 6): bit true means the sector is in use.  Only the public
contract (Find / Clear / Test / NumClear) is modelled. -/
structure BitMap where
  numBits : Nat
  bits : Nat → Bool

/-- Scan for the first clear (false) bit starting at index start, looking
at cnt further indices; mirrors BitMap::Find scanning bit 0 upward. -/
def scanClear (bits : Nat → Bool) (start cnt : Nat) : Option Nat :=
  match cnt with
  | 0 => none
  | c + 1 => if bits start then scanClear bits (start + 1) c else some start

/-- Count of clear bits in the window starting at start of width cnt. -/
def countClear (bits : Nat → Bool) (start cnt : Nat) : Nat :=
  match cnt with
  | 0 => 0
  | c + 1 => (if bits start then 0 else 1) + countClear bits (start + 1) c

/-- BitMap::NumClear: number of clear (free) bits. -/
def bmNumClear (m : BitMap) : Nat := countClear m.bits 0 m.numBits

/-- Mark bit i as in use. -/
def bmSet (m : BitMap) (i : Nat) : BitMap :=
  { m with bits := fun j => if j = i then true else m.bits j }

/-- BitMap::Find: first clear bit, marked in use; -1 when none is free. -/
def bmFind (m : BitMap) : Int × BitMap :=
  match scanClear m.bits 0 m.numBits with
  | some i => ((i : Int), bmSet m i)
  | none => (-1, m)

/-- BitMap::Test: whether bit i is set; none models the fatal range
assertion for an out-of-range index. -/
def bmTest (m : BitMap) (i : Int) : Option Bool :=
  if 0 ≤ i ∧ i < (m.numBits : Int) then some (m.bits i.toNat) else none

/-- BitMap::Clear: clear bit i; none models the fatal range assertion. -/
def bmClear (m : BitMap) (i : Int) : Option BitMap :=
  if 0 ≤ i ∧ i < (m.numBits : Int) then
    some { m with bits := fun j => if j = i.toNat then false else m.bits j }
  else none

/-- The in-memory file header (FileHeader in filehdr.h/filehdr.cc):
logical size in bytes, number of data sectors, and the fixed table of
NumDirect direct pointers (a total function; only indices below NumDirect
are ever used). -/
structure FileHeader where
  numBytes : Int
  numSectors : Int
  dataSectors : Nat → Int

/-- The simulated disk contents seen through SynchDisk: sector number to
sector contents. -/
def DiskStore := Int → Nat → Int

/-- SynchDisk::ReadSector. -/
def readSector (d : DiskStore) (s : Int) : Nat → Int := d s

/-- SynchDisk::WriteSector. -/
def writeSector (d : DiskStore) (s : Int) (v : Nat → Int) : DiskStore :=
  fun t => if t = s then v else d t

/-- The single-level allocation loop of FileHeader::Allocate: for each of
cnt iterations starting at slot i, dataSectors[i] = freeMap->Find() and
then dataSectors[NumDirect-1] = -1, exactly as the loop body in the
source writes the sentinel on every iteration. -/
def allocLoopSingle (m : BitMap) (ds : Nat → Int) (i cnt : Nat) : (Nat → Int) × BitMap :=
  match cnt with
  | 0 => (ds, m)
  | c + 1 =>
    let fr := bmFind m
    let ds1 : Nat → Int := fun j => if j = i then fr.1 else ds j
    let ds2 : Nat → Int := fun j => if j = NumDirect - 1 then (-1 : Int) else ds1 j
    allocLoopSingle fr.2 ds2 (i + 1) c

/-- A loop assigning a[i], a[i+1], ..., a[i+cnt-1] := freeMap->Find() in
order, as in the double-level branches of Allocate and ExtendSpace. -/
def findFill (m : BitMap) (a : Nat → Int) (i cnt : Nat) : (Nat → Int) × BitMap :=
  match cnt with
  | 0 => (a, m)
  | c + 1 =>
    let fr := bmFind m
    findFill fr.2 (fun j => if j = i then fr.1 else a j) (i + 1) c

/-- FileHeader::Allocate from filehdr.cc: sets numBytes and numSectors
first, then checks free space and the maximum representable size, then
fills the pointer table; in the double-level case the indirect block
(an uninitialized stack array, modelled all-zero) is filled and written
to the sector named by the last direct slot. -/
def allocate (hdr : FileHeader) (dk : DiskStore) (m : BitMap) (fileSize : Int) :
    Bool × FileHeader × DiskStore × BitMap :=
  let ns := divRoundUp fileSize SectorSize
  let hdr1 : FileHeader := { hdr with numBytes := fileSize, numSectors := ns }
  if (bmNumClear m : Int) < ns then (false, hdr1, dk, m)
  else if ((NumDirect : Int) - 1) + (NumDirect2 : Int) < ns then (false, hdr1, dk, m)
  else if ns < (NumDirect : Int) then
    let r := allocLoopSingle m hdr1.dataSectors 0 ns.toNat
    (true, { hdr1 with dataSectors := r.1 }, dk, r.2)
  else
    let r := findFill m hdr1.dataSectors 0 NumDirect
    let r2 := findFill r.2 (fun _ => 0) 0 (ns - (NumDirect : Int) + 1).toNat
    (true, { hdr1 with dataSectors := r.1 },
      writeSector dk (r.1 (NumDirect - 1)) r2.1, r2.2)

/-- Sequentially ASSERT(freeMap->Test(s)) and freeMap->Clear(s) for each
listed sector, as the deallocation loops do; none models a failed
assertion (including Test's own range assertion). -/
def clearSeq (m : BitMap) : List Int → Option BitMap
  | [] => some m
  | s :: rest =>
    match bmTest m s with
    | some true =>
      match bmClear m s with
      | some m2 => clearSeq m2 rest
      | none => none
    | _ => none

/-- FileHeader::Deallocate from filehdr.cc: clears the direct pointers
(and, in the double-level case, the entries of the indirect block read
back from disk), asserting each sector was marked allocated. -/
def deallocate (hdr : FileHeader) (dk : DiskStore) (m : BitMap) : Option BitMap :=
  if hdr.numSectors < (NumDirect : Int) then
    clearSeq m ((List.range hdr.numSectors.toNat).map fun i => hdr.dataSectors i)
  else
    let ds2 := readSector dk (hdr.dataSectors (NumDirect - 1))
    clearSeq m (((List.range NumDirect).map fun i => hdr.dataSectors i) ++
      ((List.range (hdr.numSectors - (NumDirect : Int) + 1).toNat).map fun i => ds2 i))

/-- FileHeader::ByteToSector from filehdr.cc. -/
def byteToSector (hdr : FileHeader) (dk : DiskStore) (offset : Int) : Int :=
  let oriSector := cdiv offset SectorSize
  if oriSector < (NumDirect : Int) - 1 then hdr.dataSectors oriSector.toNat
  else (readSector dk (hdr.dataSectors (NumDirect - 1)))
    (oriSector - ((NumDirect : Int) - 1)).toNat

/-- FileHeader::FileLength. -/
def fileLengthOf (hdr : FileHeader) : Int := hdr.numBytes

/-- FileHeader::SetLength. -/
def setLength (hdr : FileHeader) (len : Int) : FileHeader := { hdr with numBytes := len }

/-- FileHeader::ExtendSpace from filehdr.cc.  The returned flag is the C
boolean result; it is none on the path where control falls off the end of
the function (the single-level branch with a zero-iteration loop), whose
return value the C++ source leaves undefined.  Note that in the
single-level branch the source has a return statement inside the loop
body, so at most one sector is obtained before returning. -/
def extendSpace (hdr : FileHeader) (dk : DiskStore) (m : BitMap) (appendSize : Int) :
    Option Bool × FileHeader × DiskStore × BitMap :=
  let oriSectors := hdr.numSectors
  let ns := divRoundUp appendSize SectorSize + oriSectors
  let hdr1 : FileHeader := { hdr with numSectors := ns }
  if (bmNumClear m : Int) < ns - oriSectors then
    (some false, { hdr1 with numSectors := oriSectors }, dk, m)
  else if ns > ((NumDirect : Int) - 1) + (NumDirect2 : Int) then
    (some false, hdr1, dk, m)
  else if ns < (NumDirect : Int) then
    if oriSectors < ns then
      let fr := bmFind m
      (some true,
        { hdr1 with dataSectors := fun j => if j = oriSectors.toNat then fr.1 else hdr1.dataSectors j },
        dk, fr.2)
    else (none, hdr1, dk, m)
  else
    if oriSectors < (NumDirect : Int) then
      let r := findFill m hdr1.dataSectors oriSectors.toNat (NumDirect - oriSectors.toNat)
      let r2 := findFill r.2 (fun _ => 0) 0 (ns - (NumDirect : Int) + 1).toNat
      (some true, { hdr1 with dataSectors := r.1 },
        writeSector dk (r.1 (NumDirect - 1)) r2.1, r2.2)
    else
      let ds2 := readSector dk (hdr1.dataSectors (NumDirect - 1))
      let r2 := findFill m ds2 (oriSectors - (NumDirect : Int) + 1).toNat
        ((ns - (NumDirect : Int) + 1).toNat - (oriSectors - (NumDirect : Int) + 1).toNat)
      (some true, hdr1,
        writeSector dk (hdr1.dataSectors (NumDirect - 1)) r2.1, r2.2)

/-- bcopy of len bytes of src into dst starting at offset off. -/
def copyRange (dst : Nat → Int) (off : Nat) (src : Nat → Int) (len : Nat) : Nat → Int :=
  fun k => if off ≤ k ∧ k < off + len then src (k - off) else dst k

/-- OpenFile::ReadAt from openfile.cc: clamp the request against the file
length, read every spanned sector in full into a scratch buffer, and copy
out exactly the requested range into the caller's buffer (at offset 0).
Returns the transfer count and the updated caller buffer. -/
def readAt (hdr : FileHeader) (dk : DiskStore) (into : Nat → Int) (numBytes position : Int) :
    Int × (Nat → Int) :=
  let fileLength := fileLengthOf hdr
  if numBytes ≤ 0 ∨ position ≥ fileLength then (0, into)
  else
    let nb := if position + numBytes > fileLength then fileLength - position else numBytes
    let firstSector := divRoundDown position SectorSize
    let buf : Nat → Int := fun k =>
      readSector dk
        (byteToSector hdr dk ((firstSector + ((k / SectorSize.toNat : Nat) : Int)) * SectorSize))
        (k % SectorSize.toNat)
    let into2 := copyRange into 0
      (fun j => buf ((position - firstSector * SectorSize).toNat + j)) nb.toNat
    (nb, into2)

/-- OpenFile::AllocateSpace from openfile.cc: fetch the free-space bitmap,
ask the header to extend by size, and write the bitmap back.  The bitmap's
own persistence through the reserved bitmap file (sector 0) is an external
collaborator (spec section 6) and is modelled as a bitmap component
carried alongside the disk, transferred whole.  The boolean result of
ExtendSpace is discarded, exactly as in the source. -/
def allocateSpace (hdr : FileHeader) (dk : DiskStore) (m : BitMap) (size : Int) :
    FileHeader × DiskStore × BitMap :=
  let r := extendSpace hdr dk m size
  (r.2.1, r.2.2.1, r.2.2.2)

/-- The write-back loop of OpenFile::WriteAt: for each spanned sector, in
order, WriteSector(hdr->ByteToSector(i*SectorSize), buf + (i-fs)*SectorSize);
ByteToSector is re-evaluated against the current disk on every iteration,
as in the source. -/
def writeSectorsLoop (hdr : FileHeader) (dk : DiskStore) (buf : Nat → Int)
    (fs i : Int) (cnt : Nat) : DiskStore :=
  match cnt with
  | 0 => dk
  | c + 1 =>
    let dk2 := writeSector dk (byteToSector hdr dk (i * SectorSize))
      (fun k => buf (((i - fs) * SectorSize).toNat + k))
    writeSectorsLoop hdr dk2 buf fs (i + 1) c

/-- OpenFile::WriteAt from openfile.cc (the active, uncommented version):
if the handle's seek position is at or past the end of file, possibly
extend the file through AllocateSpace and set the length to
seekPosition + numBytes; then perform the sector-aligned
read-modify-write of the spanned sectors.  Returns the transfer count and
the updated header, disk and bitmap. -/
def writeAt (hdr : FileHeader) (dk : DiskStore) (m : BitMap) (seekPosition : Int)
    (src : Nat → Int) (numBytes position : Int) :
    Int × FileHeader × DiskStore × BitMap :=
  let fileLength := fileLengthOf hdr
  if numBytes < 0 then (0, hdr, dk, m)
  else
    let g : FileHeader × DiskStore × BitMap × Int :=
      if seekPosition ≥ fileLength then
        let curSectors := divRoundUp fileLength SectorSize
        let numPosition := seekPosition + numBytes
        let g2 : FileHeader × DiskStore × BitMap × Int :=
          if numPosition > curSectors * SectorSize then
            let a := allocateSpace hdr dk m (numPosition - curSectors * SectorSize)
            (a.1, a.2.1, a.2.2, fileLength + numBytes)
          else (hdr, dk, m, fileLength)
        (setLength g2.1 numPosition, g2.2.1, g2.2.2.1, g2.2.2.2)
      else (hdr, dk, m, fileLength)
    let hdr2 := g.1
    let dk2 := g.2.1
    let m2 := g.2.2.1
    let fl2 := g.2.2.2
    if fl2 = 0 then (0, hdr2, dk2, m2)
    else
      let firstSector := divRoundDown position SectorSize
      let lastSector := divRoundDown (position + numBytes - 1) SectorSize
      let firstAligned := position = firstSector * SectorSize
      let lastAligned := position + numBytes = (lastSector + 1) * SectorSize
      let buf0 : Nat → Int := fun _ => 0
      let buf1 := if ¬ firstAligned then (readAt hdr2 dk2 buf0 SectorSize (firstSector * SectorSize)).2 else buf0
      let buf2 :=
        if ¬ lastAligned ∧ (firstSector ≠ lastSector ∨ firstAligned) then
          let r := readAt hdr2 dk2 buf0 SectorSize (lastSector * SectorSize)
          copyRange buf1 ((lastSector - firstSector) * SectorSize).toNat r.2 r.1.toNat
        else buf1
      let buf3 := copyRange buf2 (position - firstSector * SectorSize).toNat src numBytes.toNat
      let dk3 := writeSectorsLoop hdr2 dk2 buf3 firstSector firstSector (1 + lastSector - firstSector).toNat
      (numBytes, hdr2, dk3, m2)

/-- The state of the simulated disk device (disk.cc): the busy flag
(named active in the source), the most recently serviced sector and the
time the current track buffer started being primed.  The simulated clock
(stats->totalTicks) is passed explicitly. -/
structure DiskSim where
  active : Bool
  lastSector : Int
  bufferInit : Int

/-- Disk::TimeToSeek: seek time and the partial-rotation adjustment to
the next sector boundary, returned through the rotation out-parameter. -/
def timeToSeek (d : DiskSim) (ticks newSector : Int) : Int × Int :=
  let newTrack := cdiv newSector SectorsPerTrack
  let oldTrack := cdiv d.lastSector SectorsPerTrack
  let seek := |newTrack - oldTrack| * SeekTime
  let over := cmod (ticks + seek) RotationTime
  (seek, if over > 0 then RotationTime - over else 0)

/-- Disk::ModuloDiff: rotational distance in sectors from cur to tgt. -/
def moduloDiff (tgt cur : Int) : Int :=
  cmod ((cmod tgt SectorsPerTrack - cmod cur SectorsPerTrack) + SectorsPerTrack) SectorsPerTrack

/-- The track-buffer shortcut condition of Disk::ComputeLatency. -/
def trackBufApplies (d : DiskSim) (ticks newSector : Int) (writing : Bool) : Prop :=
  writing = false ∧ (timeToSeek d ticks newSector).1 = 0 ∧
    cdiv (ticks + (timeToSeek d ticks newSector).1 + (timeToSeek d ticks newSector).2 - d.bufferInit)
        RotationTime >
      moduloDiff newSector (cdiv d.bufferInit RotationTime)

instance (d : DiskSim) (ticks newSector : Int) (writing : Bool) :
    Decidable (trackBufApplies d ticks newSector writing) := by
  unfold trackBufApplies; infer_instance

/-- Disk::ComputeLatency from disk.cc. -/
def computeLatency (d : DiskSim) (ticks newSector : Int) (writing : Bool) : Int :=
  let sr := timeToSeek d ticks newSector
  let seek := sr.1
  let rotation := sr.2
  let timeAfter := ticks + seek + rotation
  if writing = false ∧ seek = 0 ∧
      cdiv (timeAfter - d.bufferInit) RotationTime >
        moduloDiff newSector (cdiv d.bufferInit RotationTime) then
    RotationTime
  else
    seek + (rotation + moduloDiff newSector (cdiv timeAfter RotationTime) * RotationTime) +
      RotationTime

/-- Disk::UpdateLast: prime the track buffer time if a seek occurred and
record the new head sector. -/
def updateLast (d : DiskSim) (ticks newSector : Int) : DiskSim :=
  let sr := timeToSeek d ticks newSector
  { d with
    bufferInit := if sr.1 ≠ 0 then ticks + sr.1 + sr.2 else d.bufferInit,
    lastSector := newSector }

/-- Disk::ReadRequest: compute the latency, then the fatal assertions
(not busy, sector in range; none models an assertion failure), then mark
the device busy, record the head position and return the scheduled delay. -/
def readRequest (d : DiskSim) (ticks sector : Int) : Option (Int × DiskSim) :=
  let t := computeLatency d ticks sector false
  if d.active then none
  else if ¬ (0 ≤ sector ∧ sector < NumSectors) then none
  else some (t, updateLast { d with active := true } ticks sector)

/-- Disk::WriteRequest, identical to ReadRequest except for the latency
computation's writing flag. -/
def writeRequest (d : DiskSim) (ticks sector : Int) : Option (Int × DiskSim) :=
  let t := computeLatency d ticks sector true
  if d.active then none
  else if ¬ (0 ≤ sector ∧ sector < NumSectors) then none
  else some (t, updateLast { d with active := true } ticks sector)

/-- Disk::HandleInterrupt clears the busy flag; the registered callback
is then invoked against exactly this resulting state. -/
def handleInterrupt (d : DiskSim) : DiskSim := { d with active := false }

/-- The operations a client can attempt on the device. -/
inductive DiskOp where
  | readReq (sector : Int)
  | writeReq (sector : Int)
  | complete

/-- One step of the device state machine; none is a rejected (fatally
asserted) request. -/
def diskStep (d : DiskSim) (ticks : Int) : DiskOp → Option DiskSim
  | DiskOp.readReq s => (readRequest d ticks s).map (fun r => r.2)
  | DiskOp.writeReq s => (writeRequest d ticks s).map (fun r => r.2)
  | DiskOp.complete => some (handleInterrupt d)

/-- Run a sequence of timed operations from a starting device state;
none as soon as one operation is rejected. -/
def diskRun (d : DiskSim) : List (Int × DiskOp) → Option DiskSim
  | [] => some d
  | (t, op) :: rest =>
    match diskStep d t op with
    | some d2 => diskRun d2 rest
    | none => none

/-- The sequence of sector numbers produced by k successive
freeMap->Find() calls, together with the resulting bitmap; this is the
specification-side description of the pointer table built during
allocation and is related to the allocation loops by the lemmas below. -/
def allocN : Nat → BitMap → List Int × BitMap
  | 0, m => ([], m)
  | k + 1, m =>
    let fr := bmFind m
    let r := allocN k fr.2
    (fr.1 :: r.1, r.2)

/-- Clear bit i unconditionally (the effect of a successful Clear). -/
def clearBit (m : BitMap) (i : Nat) : BitMap :=
  { m with bits := fun j => if j = i then false else m.bits j }

/-- The data sector that the pointer table built by a successful Allocate
on bitmap m assigns to logical block blk of a file of ns sectors: direct
slots below N1-1 in the single-level range, entries of the freshly built
indirect block beyond it. -/
def allocatedDataSector (m : BitMap) (ns blk : Nat) : Int :=
  if ns < NumDirect then (allocN ns m).1.getD blk 0
  else if blk < NumDirect - 1 then (allocN NumDirect m).1.getD blk 0
  else (allocN (ns - NumDirect + 1) (allocN NumDirect m).2).1.getD (blk - (NumDirect - 1)) 0

theorem bitmap_ext {m m' : BitMap} (h1 : m.numBits = m'.numBits)
    (h2 : ∀ j, m.bits j = m'.bits j) : m = m' := by
  cases m; cases m'
  simp only [BitMap.mk.injEq]
  exact ⟨h1, funext h2⟩

theorem scanClear_some {bits : Nat → Bool} {s c i : Nat}
    (h : scanClear bits s c = some i) : s ≤ i ∧ i < s + c ∧ bits i = false := by
  induction c generalizing s with
  | zero => simp [scanClear] at h
  | succ c ih =>
    rw [scanClear] at h
    by_cases hb : bits s
    · rw [if_pos hb] at h
      obtain ⟨h1, h2, h3⟩ := ih h
      exact ⟨by omega, by omega, h3⟩
    · rw [if_neg hb] at h
      cases h
      exact ⟨le_refl _, by omega, by simpa using hb⟩

theorem scanClear_isSome {bits : Nat → Bool} {s c : Nat}
    (h : 0 < countClear bits s c) : ∃ i, scanClear bits s c = some i := by
  induction c generalizing s with
  | zero => simp [countClear] at h
  | succ c ih =>
    rw [countClear] at h
    rw [scanClear]
    by_cases hb : bits s
    · rw [if_pos hb]
      exact ih (by simpa [hb] using h)
    · rw [if_neg hb]
      exact ⟨s, rfl⟩

theorem countClear_congr {b1 b2 : Nat → Bool} {s c : Nat}
    (h : ∀ j, s ≤ j → j < s + c → b1 j = b2 j) :
    countClear b1 s c = countClear b2 s c := by
  induction c generalizing s with
  | zero => rfl
  | succ c ih =>
    rw [countClear, countClear, h s (le_refl s) (by omega),
      ih (fun j h1 h2 => h j (by omega) (by omega))]

theorem countClear_set {bits : Nat → Bool} {s c i : Nat}
    (hs : s ≤ i) (hc : i < s + c) (hb : bits i = false) :
    countClear (fun j => if j = i then true else bits j) s c + 1 = countClear bits s c := by
  induction c generalizing s with
  | zero => omega
  | succ c ih =>
    rw [countClear, countClear]
    by_cases hsi : s = i
    · subst hsi
      have htail : countClear (fun j => if j = s then true else bits j) (s + 1) c
          = countClear bits (s + 1) c :=
        countClear_congr (fun j h1 _ => by simp [show ¬ (j = s) by omega])
      have h1 : (if s = s then true else bits s) = true := if_pos rfl
      rw [h1, hb, htail]
      simp
      omega
    · rw [if_neg hsi]
      have h2 := @ih (s + 1) (by omega) (by omega)
      omega

theorem bmFind_spec {m : BitMap} (h : 0 < bmNumClear m) :
    ∃ i : Nat, bmFind m = ((i : Int), bmSet m i) ∧ i < m.numBits ∧
      m.bits i = false ∧ bmNumClear (bmSet m i) + 1 = bmNumClear m := by
  obtain ⟨i, hi⟩ := scanClear_isSome (s := 0) h
  obtain ⟨_, hlt, hfalse⟩ := scanClear_some hi
  refine ⟨i, ?_, by omega, hfalse, ?_⟩
  · rw [bmFind, hi]
  · have hrw : bmNumClear (bmSet m i)
        = countClear (fun j => if j = i then true else m.bits j) 0 m.numBits := rfl
    rw [hrw]
    exact countClear_set (Nat.zero_le i) (by omega) hfalse

theorem allocN_length (k : Nat) (m : BitMap) : (allocN k m).1.length = k := by
  induction k generalizing m with
  | zero => rfl
  | succ k ih => simp [allocN, ih]

theorem allocN_numBits (k : Nat) (m : BitMap) : (allocN k m).2.numBits = m.numBits := by
  induction k generalizing m with
  | zero => rfl
  | succ k ih =>
    rw [allocN]
    rcases h : scanClear m.bits 0 m.numBits with _ | i <;>
      simp [ih, bmFind, h, bmSet]

theorem allocN_bits_mono {j : Nat} (k : Nat) (m : BitMap) (h : m.bits j = true) :
    (allocN k m).2.bits j = true := by
  induction k generalizing m with
  | zero => exact h
  | succ k ih =>
    rw [allocN]
    show (allocN k (bmFind m).2).2.bits j = true
    rcases hs : scanClear m.bits 0 m.numBits with _ | i
    · have he : (bmFind m).2 = m := by simp [bmFind, hs]
      rw [he]; exact ih m h
    · have he : (bmFind m).2 = bmSet m i := by simp [bmFind, hs]
      rw [he]
      refine ih (bmSet m i) ?_
      simp only [bmSet]
      by_cases hj : j = i <;> simp [hj, h]

theorem allocN_numClear {k : Nat} {m : BitMap} (h : k ≤ bmNumClear m) :
    bmNumClear (allocN k m).2 + k = bmNumClear m := by
  induction k generalizing m with
  | zero => rfl
  | succ k ih =>
    obtain ⟨i, hfind, _, _, hcount⟩ := bmFind_spec (m := m) (by omega)
    rw [allocN, hfind]
    have := ih (m := bmSet m i) (by omega)
    simpa using by omega

theorem allocN_mem {k : Nat} {m : BitMap} (h : k ≤ bmNumClear m) :
    ∀ e ∈ (allocN k m).1, ∃ j : Nat, e = (j : Int) ∧ j < m.numBits ∧ m.bits j = false := by
  induction k generalizing m with
  | zero => intro e he; simp [allocN] at he
  | succ k ih =>
    obtain ⟨i, hfind, hlt, hfalse, hcount⟩ := bmFind_spec (m := m) (by omega)
    intro e he
    rw [allocN, hfind] at he
    simp only [List.mem_cons] at he
    rcases he with he | he
    · exact ⟨i, he, hlt, hfalse⟩
    · obtain ⟨j, hj1, hj2, hj3⟩ := ih (m := bmSet m i) (by omega) e he
      refine ⟨j, hj1, by simpa [bmSet] using hj2, ?_⟩
      by_cases hji : j = i
      · subst hji; simp [bmSet] at hj3
      · simpa [bmSet, hji] using hj3

theorem allocN_append (a b : Nat) (m : BitMap) :
    allocN (a + b) m
      = ((allocN a m).1 ++ (allocN b (allocN a m).2).1, (allocN b (allocN a m).2).2) := by
  induction a generalizing m with
  | zero =>
    rw [Nat.zero_add]
    show allocN b m = (([] : List Int) ++ (allocN b m).1, (allocN b m).2)
    simp
  | succ a ih =>
    rw [show a + 1 + b = (a + b) + 1 by omega, allocN]
    show ((bmFind m).1 :: (allocN (a + b) (bmFind m).2).1, (allocN (a + b) (bmFind m).2).2) = _
    rw [ih (bmFind m).2]
    conv_rhs => rw [allocN]
    simp

theorem clearSeq_clearBit {L : List Int} {m m' : BitMap}
    (h : clearSeq m L = some m') {i : Nat} (hi : (i : Int) ∉ L) :
    clearSeq (clearBit m i) L = some (clearBit m' i) := by
  induction L generalizing m with
  | nil =>
    simp only [clearSeq] at h ⊢
    cases h; rfl
  | cons s L ih =>
    rw [clearSeq] at h
    rcases ht : bmTest m s with _ | b
    · rw [ht] at h; cases h
    · rw [ht] at h
      rcases b with _ | _
      · cases h
      · have hrange : 0 ≤ s ∧ s < (m.numBits : Int) := by
          by_contra hc
          simp [bmTest, hc] at ht
        have hbit : m.bits s.toNat = true := by
          simpa [bmTest, if_pos hrange] using ht
        have h2 : (match bmClear m s with
            | some m2 => clearSeq m2 L
            | none => none) = some m' := h
        rw [bmClear, if_pos hrange] at h2
        have h3 : clearSeq { m with bits := fun j => if j = s.toNat then false else m.bits j } L
            = some m' := h2
        have hsi : s.toNat ≠ i := by
          intro hcontra
          apply hi
          have hsv : s = (i : Int) := by omega
          simp [hsv]
        have ht2 : bmTest (clearBit m i) s = some true := by
          simp only [bmTest, clearBit]
          rw [if_pos (by simpa using hrange)]
          simp [hsi, hbit]
        rw [clearSeq, ht2]
        show (match bmClear (clearBit m i) s with
          | some m2 => clearSeq m2 L
          | none => none) = some (clearBit m' i)
        rw [bmClear, if_pos (by simpa [clearBit] using hrange)]
        show clearSeq ({ clearBit m i with
            bits := fun j => if j = s.toNat then false else (clearBit m i).bits j }) L
          = some (clearBit m' i)
        have hcomm : ({ clearBit m i with
            bits := fun j => if j = s.toNat then false else (clearBit m i).bits j } : BitMap)
            = clearBit { m with bits := fun j => if j = s.toNat then false else m.bits j } i := by
          refine bitmap_ext rfl (fun j => ?_)
          simp only [clearBit]
          by_cases hc1 : j = s.toNat <;> by_cases hc2 : j = i <;> simp [hc1, hc2]
        rw [hcomm]
        exact ih h3 (by simp at hi; exact hi.2)

theorem clearSeq_allocN {k : Nat} {m : BitMap} (h : k ≤ bmNumClear m) :
    clearSeq (allocN k m).2 (allocN k m).1 = some m := by
  induction k generalizing m with
  | zero => rfl
  | succ k ih =>
    obtain ⟨i, hfind, hlt, hfalse, hcount⟩ := bmFind_spec (m := m) (by omega)
    rw [allocN, hfind]
    show clearSeq (allocN k (bmSet m i)).2 ((i : Int) :: (allocN k (bmSet m i)).1) = some m
    have hnb : (allocN k (bmSet m i)).2.numBits = m.numBits := by
      rw [allocN_numBits]; rfl
    have hbit : (allocN k (bmSet m i)).2.bits i = true :=
      allocN_bits_mono k (bmSet m i) (by simp [bmSet])
    have ht : bmTest (allocN k (bmSet m i)).2 (i : Int) = some true := by
      simp only [bmTest]
      rw [if_pos (by constructor <;> omega)]
      simpa using hbit
    rw [clearSeq, ht]
    show (match bmClear (allocN k (bmSet m i)).2 (i : Int) with
      | some m2 => clearSeq m2 (allocN k (bmSet m i)).1
      | none => none) = some m
    rw [bmClear, if_pos (by constructor <;> omega)]
    show clearSeq ({ (allocN k (bmSet m i)).2 with
        bits := fun j => if j = ((i : Int)).toNat then false
          else (allocN k (bmSet m i)).2.bits j }) (allocN k (bmSet m i)).1 = some m
    have hnotmem : (i : Int) ∉ (allocN k (bmSet m i)).1 := by
      intro hmem
      obtain ⟨j, hj1, _, hj3⟩ := allocN_mem (m := bmSet m i) (by omega) _ hmem
      have hji : j = i := by omega
      subst hji
      simp [bmSet] at hj3
    have hstep := clearSeq_clearBit (ih (m := bmSet m i) (by omega)) hnotmem
    have heq1 : ({ (allocN k (bmSet m i)).2 with
        bits := fun j => if j = ((i : Int)).toNat then false
          else (allocN k (bmSet m i)).2.bits j } : BitMap)
        = clearBit (allocN k (bmSet m i)).2 i := by
      refine bitmap_ext rfl (fun j => ?_)
      simp [clearBit]
    have heq2 : clearBit (bmSet m i) i = m := by
      refine bitmap_ext rfl (fun j => ?_)
      simp only [clearBit, bmSet]
      by_cases hj : j = i <;> simp [hj, hfalse]
    rw [heq1, hstep, heq2]

theorem readSector_writeSector_same (d : DiskStore) (s : Int) (v : Nat → Int) :
    readSector (writeSector d s v) s = v := by
  simp [readSector, writeSector]

theorem readSector_writeSector_ne (d : DiskStore) {s t : Int} (v : Nat → Int)
    (h : t ≠ s) : readSector (writeSector d s v) t = readSector d t := by
  simp [readSector, writeSector, h]

theorem map_range_getD (L : List Int) :
    (List.range L.length).map (fun i => L.getD i 0) = L := by
  apply List.ext_getElem
  · simp
  · intro i h1 h2
    simp [List.getD_eq_getElem?_getD, List.getElem?_eq_getElem h2]

theorem map_fn_range_getD (L : List Int) (n : Nat) (h : L.length = n) :
    (List.range n).map (fun i => L.getD i 0) = L := by
  subst h; exact map_range_getD L

theorem findFill_spec (m : BitMap) (a : Nat → Int) (i cnt : Nat) :
    (findFill m a i cnt).2 = (allocN cnt m).2 ∧
      ∀ j, (findFill m a i cnt).1 j =
        if i ≤ j ∧ j < i + cnt then (allocN cnt m).1.getD (j - i) 0 else a j := by
  induction cnt generalizing m a i with
  | zero =>
    refine ⟨rfl, fun j => ?_⟩
    rw [if_neg (by omega)]
    rfl
  | succ c ih =>
    rw [findFill, allocN]
    obtain ⟨ihs, ihv⟩ := ih (bmFind m).2 (fun j => if j = i then (bmFind m).1 else a j) (i + 1)
    refine ⟨ihs, fun j => ?_⟩
    rw [ihv j]
    dsimp only
    split_ifs with h1 h2 h3 h4 h5 <;>
      first
        | rfl
        | (exfalso; omega)
        | (rw [show j - i = (j - (i + 1)) + 1 by omega, List.getD_cons_succ])
        | (rw [show j - i = 0 by omega, List.getD_cons_zero])

theorem allocLoopSingle_spec (m : BitMap) (ds : Nat → Int) (i cnt : Nat)
    (hbound : i + cnt ≤ NumDirect - 1) :
    (allocLoopSingle m ds i cnt).2 = (allocN cnt m).2 ∧
      ∀ j, (allocLoopSingle m ds i cnt).1 j =
        if i ≤ j ∧ j < i + cnt then (allocN cnt m).1.getD (j - i) 0
        else if j = NumDirect - 1 ∧ cnt ≠ 0 then -1
        else ds j := by
  have hnd : NumDirect = 30 := rfl
  induction cnt generalizing m ds i with
  | zero =>
    refine ⟨rfl, fun j => ?_⟩
    rw [if_neg (by omega), if_neg (by omega)]
    rfl
  | succ c ih =>
    rw [allocLoopSingle, allocN]
    obtain ⟨ihs, ihv⟩ := ih (bmFind m).2
      (fun j => if j = NumDirect - 1 then (-1 : Int)
        else if j = i then (bmFind m).1 else ds j) (i + 1) (by omega)
    refine ⟨ihs, fun j => ?_⟩
    rw [ihv j]
    dsimp only
    split_ifs with h1 h2 h3 h4 h5 h6 h7 h8 h9 h10 <;>
      first
        | rfl
        | (exfalso; omega)
        | (rw [show j - i = (j - (i + 1)) + 1 by omega, List.getD_cons_succ])
        | (rw [show j - i = 0 by omega, List.getD_cons_zero])

theorem allocate_eq_single (hdr : FileHeader) (dk : DiskStore) (m : BitMap) (fileSize : Int)
    (hfree : ¬ ((bmNumClear m : Int) < divRoundUp fileSize SectorSize))
    (hsingle : divRoundUp fileSize SectorSize < (NumDirect : Int)) :
    allocate hdr dk m fileSize =
      (true,
        { numBytes := fileSize, numSectors := divRoundUp fileSize SectorSize,
          dataSectors :=
            (allocLoopSingle m hdr.dataSectors 0 (divRoundUp fileSize SectorSize).toNat).1 },
        dk,
        (allocLoopSingle m hdr.dataSectors 0 (divRoundUp fileSize SectorSize).toNat).2) := by
  have h30 : (NumDirect : Int) = 30 := rfl
  have h32 : (NumDirect2 : Int) = 32 := rfl
  have hmax : ¬ (((NumDirect : Int) - 1) + (NumDirect2 : Int) < divRoundUp fileSize SectorSize) := by
    omega
  simp only [allocate]
  rw [if_neg hfree, if_neg hmax, if_pos hsingle]

theorem allocate_eq_double (hdr : FileHeader) (dk : DiskStore) (m : BitMap) (fileSize : Int)
    (hfree : ¬ ((bmNumClear m : Int) < divRoundUp fileSize SectorSize))
    (hmax : ¬ (((NumDirect : Int) - 1) + (NumDirect2 : Int) < divRoundUp fileSize SectorSize))
    (hdouble : ¬ (divRoundUp fileSize SectorSize < (NumDirect : Int))) :
    allocate hdr dk m fileSize =
      (true,
        { numBytes := fileSize, numSectors := divRoundUp fileSize SectorSize,
          dataSectors := (findFill m hdr.dataSectors 0 NumDirect).1 },
        writeSector dk ((findFill m hdr.dataSectors 0 NumDirect).1 (NumDirect - 1))
          (findFill (findFill m hdr.dataSectors 0 NumDirect).2 (fun _ => 0) 0
            (divRoundUp fileSize SectorSize - (NumDirect : Int) + 1).toNat).1,
        (findFill (findFill m hdr.dataSectors 0 NumDirect).2 (fun _ => 0) 0
          (divRoundUp fileSize SectorSize - (NumDirect : Int) + 1).toNat).2) := by
  simp only [allocate]
  rw [if_neg hfree, if_neg hmax, if_neg hdouble]

/-- C4 (amended): a successful Allocate immediately followed by Deallocate
restores the free-space bitmap exactly, provided the bitmap has one spare
sector beyond numSectors in the double-level configuration (the extra
sector holding the indirect block, which Allocate's own free-space check
fails to count). -/
theorem allocate_deallocate_roundtrip (hdr : FileHeader) (dk : DiskStore) (m : BitMap)
    (fileSize : Int) (h0 : 0 ≤ fileSize)
    (hmax : divRoundUp fileSize SectorSize ≤ ((NumDirect : Int) - 1) + (NumDirect2 : Int))
    (hfree : (if divRoundUp fileSize SectorSize < (NumDirect : Int)
        then divRoundUp fileSize SectorSize
        else divRoundUp fileSize SectorSize + 1) ≤ (bmNumClear m : Int)) :
    (allocate hdr dk m fileSize).1 = true ∧
      deallocate (allocate hdr dk m fileSize).2.1 (allocate hdr dk m fileSize).2.2.1
        (allocate hdr dk m fileSize).2.2.2 = some m := by
  have h30 : (NumDirect : Int) = 30 := rfl
  have hndn : NumDirect = 30 := rfl
  have hss : SectorSize = (128 : Int) := rfl
  have hns0 : 0 ≤ divRoundUp fileSize SectorSize :=
    Int.tdiv_nonneg (by omega) (by omega)
  by_cases hsingle : divRoundUp fileSize SectorSize < (NumDirect : Int)
  · have hfree' : ¬ ((bmNumClear m : Int) < divRoundUp fileSize SectorSize) := by
      rw [if_pos hsingle] at hfree; omega
    rw [allocate_eq_single hdr dk m fileSize hfree' hsingle]
    refine ⟨rfl, ?_⟩
    show deallocate
      { numBytes := fileSize, numSectors := divRoundUp fileSize SectorSize,
        dataSectors :=
          (allocLoopSingle m hdr.dataSectors 0 (divRoundUp fileSize SectorSize).toNat).1 }
      dk (allocLoopSingle m hdr.dataSectors 0 (divRoundUp fileSize SectorSize).toNat).2 = some m
    rw [deallocate]
    dsimp only
    rw [if_pos hsingle]
    obtain ⟨hs2, hv⟩ := allocLoopSingle_spec m hdr.dataSectors 0
      (divRoundUp fileSize SectorSize).toNat (by omega)
    have hmap : (List.range (divRoundUp fileSize SectorSize).toNat).map
        (fun i => (allocLoopSingle m hdr.dataSectors 0 (divRoundUp fileSize SectorSize).toNat).1 i)
        = (allocN (divRoundUp fileSize SectorSize).toNat m).1 := by
      have hstep1 : ∀ i ∈ List.range (divRoundUp fileSize SectorSize).toNat,
          (allocLoopSingle m hdr.dataSectors 0 (divRoundUp fileSize SectorSize).toNat).1 i
            = (allocN (divRoundUp fileSize SectorSize).toNat m).1.getD i 0 := by
        intro i hi
        rw [List.mem_range] at hi
        rw [hv i, if_pos (by omega), Nat.sub_zero]
      rw [List.map_congr_left hstep1]
      exact map_fn_range_getD _ _ (allocN_length _ m)
    rw [hs2, hmap]
    exact clearSeq_allocN (by omega)
  · have hfree2 : divRoundUp fileSize SectorSize + 1 ≤ (bmNumClear m : Int) := by
      rw [if_neg hsingle] at hfree; omega
    have hfree' : ¬ ((bmNumClear m : Int) < divRoundUp fileSize SectorSize) := by omega
    rw [allocate_eq_double hdr dk m fileSize hfree' (by omega) hsingle]
    refine ⟨rfl, ?_⟩
    obtain ⟨hs1, hv1⟩ := findFill_spec m hdr.dataSectors 0 NumDirect
    obtain ⟨hs2, hv2⟩ := findFill_spec (findFill m hdr.dataSectors 0 NumDirect).2 (fun _ => 0) 0
      (divRoundUp fileSize SectorSize - (NumDirect : Int) + 1).toNat
    rw [deallocate]
    dsimp only
    rw [if_neg hsingle]
    rw [readSector_writeSector_same]
    have hmap1 : (List.range NumDirect).map (fun i => (findFill m hdr.dataSectors 0 NumDirect).1 i)
        = (allocN NumDirect m).1 := by
      have hstep1 : ∀ i ∈ List.range NumDirect,
          (findFill m hdr.dataSectors 0 NumDirect).1 i = (allocN NumDirect m).1.getD i 0 := by
        intro i hi
        rw [List.mem_range] at hi
        rw [hv1 i, if_pos (by omega), Nat.sub_zero]
      rw [List.map_congr_left hstep1]
      exact map_fn_range_getD _ _ (allocN_length _ m)
    have hmap2 : (List.range (divRoundUp fileSize SectorSize - (NumDirect : Int) + 1).toNat).map
        (fun i => (findFill (findFill m hdr.dataSectors 0 NumDirect).2 (fun _ => 0) 0
          (divRoundUp fileSize SectorSize - (NumDirect : Int) + 1).toNat).1 i)
        = (allocN (divRoundUp fileSize SectorSize - (NumDirect : Int) + 1).toNat
            (allocN NumDirect m).2).1 := by
      have hstep2 : ∀ i ∈ List.range (divRoundUp fileSize SectorSize - (NumDirect : Int) + 1).toNat,
          (findFill (findFill m hdr.dataSectors 0 NumDirect).2 (fun _ => 0) 0
            (divRoundUp fileSize SectorSize - (NumDirect : Int) + 1).toNat).1 i
          = (allocN (divRoundUp fileSize SectorSize - (NumDirect : Int) + 1).toNat
              (allocN NumDirect m).2).1.getD i 0 := by
        intro i hi
        rw [List.mem_range] at hi
        rw [hv2 i, if_pos (by omega), Nat.sub_zero, hs1]
      rw [List.map_congr_left hstep2]
      exact map_fn_range_getD _ _ (allocN_length _ _)
    rw [hmap1, hmap2, hs2, hs1]
    have happ := allocN_append NumDirect
      (divRoundUp fileSize SectorSize - (NumDirect : Int) + 1).toNat m
    have happ1 : (allocN NumDirect m).1
        ++ (allocN (divRoundUp fileSize SectorSize - (NumDirect : Int) + 1).toNat
            (allocN NumDirect m).2).1
        = (allocN (NumDirect + (divRoundUp fileSize SectorSize - (NumDirect : Int) + 1).toNat) m).1 := by
      rw [happ]
    have happ2 : (allocN (divRoundUp fileSize SectorSize - (NumDirect : Int) + 1).toNat
          (allocN NumDirect m).2).2
        = (allocN (NumDirect + (divRoundUp fileSize SectorSize - (NumDirect : Int) + 1).toNat) m).2 := by
      rw [happ]
    rw [happ1, happ2]
    exact clearSeq_allocN (by omega)

/-- C5: after a successful Allocate (with the free space the allocation
actually consumes, including the indirect block in the double-level
configuration), ByteToSector resolves every offset in the allocated range
through the pointer table built during allocation: direct slots below
N1-1, and entries of the indirect block, read back from the sector named
by the last direct slot, beyond that, in both the single-level and the
double-level configurations. -/
theorem byteToSector_allocate_consistent (hdr : FileHeader) (dk : DiskStore) (m : BitMap)
    (fileSize : Int) (h0 : 0 ≤ fileSize)
    (hmax : divRoundUp fileSize SectorSize ≤ ((NumDirect : Int) - 1) + (NumDirect2 : Int))
    (hfree : (if divRoundUp fileSize SectorSize < (NumDirect : Int)
        then divRoundUp fileSize SectorSize
        else divRoundUp fileSize SectorSize + 1) ≤ (bmNumClear m : Int)) :
    (allocate hdr dk m fileSize).1 = true ∧
      ∀ offset : Int, 0 ≤ offset → offset < fileSize →
        byteToSector (allocate hdr dk m fileSize).2.1 (allocate hdr dk m fileSize).2.2.1 offset
          = allocatedDataSector m (divRoundUp fileSize SectorSize).toNat
              (cdiv offset SectorSize).toNat := by
  have h30 : (NumDirect : Int) = 30 := rfl
  have hndn : NumDirect = 30 := rfl
  have hss : SectorSize = (128 : Int) := rfl
  have hnse : divRoundUp fileSize SectorSize = (fileSize + 128 - 1) / 128 :=
    Int.tdiv_eq_ediv (by omega) (by omega)
  have hns0 : 0 ≤ divRoundUp fileSize SectorSize := by rw [hnse]; omega
  have hupper : fileSize ≤ 128 * divRoundUp fileSize SectorSize := by rw [hnse]; omega
  by_cases hsingle : divRoundUp fileSize SectorSize < (NumDirect : Int)
  · have hfree' : ¬ ((bmNumClear m : Int) < divRoundUp fileSize SectorSize) := by
      rw [if_pos hsingle] at hfree; omega
    rw [allocate_eq_single hdr dk m fileSize hfree' hsingle]
    refine ⟨rfl, fun offset hoff0 hoffu => ?_⟩
    have hblkE : cdiv offset SectorSize = offset / 128 := Int.tdiv_eq_ediv hoff0 (by omega)
    have hblk0 : 0 ≤ cdiv offset SectorSize := by rw [hblkE]; omega
    have hblku : cdiv offset SectorSize < divRoundUp fileSize SectorSize := by
      rw [hblkE, hnse]; omega
    obtain ⟨hs2, hv⟩ := allocLoopSingle_spec m hdr.dataSectors 0
      (divRoundUp fileSize SectorSize).toNat (by omega)
    rw [byteToSector]
    dsimp only
    rw [if_pos (show cdiv offset SectorSize < (NumDirect : Int) - 1 by omega)]
    rw [hv, if_pos (by omega), Nat.sub_zero]
    rw [allocatedDataSector, if_pos (by omega)]
  · have hfree2 : divRoundUp fileSize SectorSize + 1 ≤ (bmNumClear m : Int) := by
      rw [if_neg hsingle] at hfree; omega
    have hfree' : ¬ ((bmNumClear m : Int) < divRoundUp fileSize SectorSize) := by omega
    rw [allocate_eq_double hdr dk m fileSize hfree' (by omega) hsingle]
    refine ⟨rfl, fun offset hoff0 hoffu => ?_⟩
    have hblkE : cdiv offset SectorSize = offset / 128 := Int.tdiv_eq_ediv hoff0 (by omega)
    have hblk0 : 0 ≤ cdiv offset SectorSize := by rw [hblkE]; omega
    have hblku : cdiv offset SectorSize < divRoundUp fileSize SectorSize := by
      rw [hblkE, hnse]; omega
    obtain ⟨hs1, hv1⟩ := findFill_spec m hdr.dataSectors 0 NumDirect
    obtain ⟨hs2, hv2⟩ := findFill_spec (findFill m hdr.dataSectors 0 NumDirect).2 (fun _ => 0) 0
      (divRoundUp fileSize SectorSize - (NumDirect : Int) + 1).toNat
    rw [byteToSector]
    dsimp only
    by_cases hb29 : cdiv offset SectorSize < (NumDirect : Int) - 1
    · rw [if_pos hb29]
      rw [hv1, if_pos (by omega), Nat.sub_zero]
      rw [allocatedDataSector, if_neg (by omega), if_pos (by omega)]
    · rw [if_neg hb29]
      rw [readSector_writeSector_same]
      rw [hv2, if_pos (by omega), Nat.sub_zero, hs1]
      rw [allocatedDataSector, if_neg (by omega), if_neg (by omega)]
      have hcnt : (divRoundUp fileSize SectorSize - (NumDirect : Int) + 1).toNat
          = (divRoundUp fileSize SectorSize).toNat - NumDirect + 1 := by omega
      have hidx : (cdiv offset SectorSize - ((NumDirect : Int) - 1)).toNat
          = (cdiv offset SectorSize).toNat - (NumDirect - 1) := by omega
      rw [hcnt, hidx]

theorem extendSpace_nofree (hdr : FileHeader) (dk : DiskStore) (m : BitMap) (appendSize : Int)
    (h : (bmNumClear m : Int) < divRoundUp appendSize SectorSize) :
    extendSpace hdr dk m appendSize = (some false, hdr, dk, m) := by
  rw [extendSpace]
  dsimp only
  rw [if_pos (by omega)]

theorem extendSpace_maxfail (hdr : FileHeader) (dk : DiskStore) (m : BitMap) (appendSize : Int)
    (h1 : ¬ ((bmNumClear m : Int) < divRoundUp appendSize SectorSize))
    (h2 : divRoundUp appendSize SectorSize + hdr.numSectors
      > ((NumDirect : Int) - 1) + (NumDirect2 : Int)) :
    extendSpace hdr dk m appendSize
      = (some false,
        { hdr with numSectors := divRoundUp appendSize SectorSize + hdr.numSectors }, dk, m) := by
  rw [extendSpace]
  dsimp only
  rw [if_neg (by omega), if_pos (by omega)]

theorem allocate_fail (hdr : FileHeader) (dk : DiskStore) (m : BitMap) (fileSize : Int)
    (hf : (allocate hdr dk m fileSize).1 = false) :
    allocate hdr dk m fileSize
      = (false,
        { hdr with numBytes := fileSize, numSectors := divRoundUp fileSize SectorSize },
        dk, m) := by
  rw [allocate] at hf ⊢
  dsimp only at hf ⊢
  by_cases h1 : (bmNumClear m : Int) < divRoundUp fileSize SectorSize
  · rw [if_pos h1]
  · rw [if_neg h1] at hf ⊢
    by_cases h2 : ((NumDirect : Int) - 1) + (NumDirect2 : Int) < divRoundUp fileSize SectorSize
    · rw [if_pos h2]
    · rw [if_neg h2] at hf ⊢
      by_cases h3 : divRoundUp fileSize SectorSize < (NumDirect : Int)
      · rw [if_pos h3] at hf; cases hf
      · rw [if_neg h3] at hf; cases hf

/-- C1 (amended): a failing Allocate or ExtendSpace call leaves the
pointer table, the disk and the bitmap unchanged, and ExtendSpace never
changes byteLength.  ExtendSpace's insufficient-free-space failure fully
restores the header (numSectors rolled back); but its maximum-size
failure leaves numSectors at the extended value, and Allocate's failure
paths leave numBytes and numSectors set to the values computed for the
requested size rather than their pre-call values. -/
theorem failure_state_effects (hdr : FileHeader) (dk : DiskStore) (m : BitMap)
    (fileSize appendSize : Int) :
    ((bmNumClear m : Int) < divRoundUp appendSize SectorSize →
      extendSpace hdr dk m appendSize = (some false, hdr, dk, m)) ∧
    (¬ ((bmNumClear m : Int) < divRoundUp appendSize SectorSize) →
      divRoundUp appendSize SectorSize + hdr.numSectors
          > ((NumDirect : Int) - 1) + (NumDirect2 : Int) →
      extendSpace hdr dk m appendSize
        = (some false,
          { hdr with numSectors := divRoundUp appendSize SectorSize + hdr.numSectors }, dk, m)) ∧
    ((allocate hdr dk m fileSize).1 = false →
      allocate hdr dk m fileSize
        = (false,
          { hdr with numBytes := fileSize, numSectors := divRoundUp fileSize SectorSize },
          dk, m)) :=
  ⟨extendSpace_nofree hdr dk m appendSize,
    extendSpace_maxfail hdr dk m appendSize,
    allocate_fail hdr dk m fileSize⟩

/-- C1 counterexample: a failing Allocate on an exhausted bitmap reports
false yet changes numBytes from 0 to 128 and numSectors from 0 to 1; and
a maximum-size ExtendSpace failure leaves numSectors at the extended
value 62 instead of restoring 61. -/
theorem failure_state_counterexample :
    (allocate { numBytes := 0, numSectors := 0, dataSectors := fun _ => 0 } (fun _ _ => 0)
      { numBits := 4, bits := fun _ => true } 128).1 = false ∧
    (allocate { numBytes := 0, numSectors := 0, dataSectors := fun _ => 0 } (fun _ _ => 0)
      { numBits := 4, bits := fun _ => true } 128).2.1.numBytes = 128 ∧
    (allocate { numBytes := 0, numSectors := 0, dataSectors := fun _ => 0 } (fun _ _ => 0)
      { numBits := 4, bits := fun _ => true } 128).2.1.numSectors = 1 ∧
    (extendSpace { numBytes := 7808, numSectors := 61, dataSectors := fun _ => 5 } (fun _ _ => 0)
      { numBits := 100, bits := fun j => j < 70 } 128).1 = some false ∧
    (extendSpace { numBytes := 7808, numSectors := 61, dataSectors := fun _ => 5 } (fun _ _ => 0)
      { numBits := 100, bits := fun j => j < 70 } 128).2.1.numSectors = 62 := by
  refine ⟨rfl, rfl, rfl, ?_, ?_⟩ <;> decide

/-- C2: at the failing input (a one-sector file extended by 256 bytes,
staying in single-level range), ExtendSpace returns true but obtains only
one sector from the bitmap instead of the two-sector delta: slot 1 is
assigned, slot 2 is left at its sentinel, and the bitmap loses exactly
one free sector (7 to 6), because the return statement sits inside the
allocation loop. -/
theorem extendSpace_single_one_sector :
    (extendSpace { numBytes := 128, numSectors := 1, dataSectors := fun j => if j = 0 then 0 else -1 }
      (fun _ _ => 0) { numBits := 8, bits := fun j => j == 0 } 256).1 = some true ∧
    (extendSpace { numBytes := 128, numSectors := 1, dataSectors := fun j => if j = 0 then 0 else -1 }
      (fun _ _ => 0) { numBits := 8, bits := fun j => j == 0 } 256).2.1.numSectors = 3 ∧
    (extendSpace { numBytes := 128, numSectors := 1, dataSectors := fun j => if j = 0 then 0 else -1 }
      (fun _ _ => 0) { numBits := 8, bits := fun j => j == 0 } 256).2.1.dataSectors 1 = 1 ∧
    (extendSpace { numBytes := 128, numSectors := 1, dataSectors := fun j => if j = 0 then 0 else -1 }
      (fun _ _ => 0) { numBits := 8, bits := fun j => j == 0 } 256).2.1.dataSectors 2 = -1 ∧
    bmNumClear (extendSpace { numBytes := 128, numSectors := 1, dataSectors := fun j => if j = 0 then 0 else -1 }
      (fun _ _ => 0) { numBits := 8, bits := fun j => j == 0 } 256).2.2.2 = 6 ∧
    bmNumClear { numBits := 8, bits := fun j => j == 0 } = 7 := by
  refine ⟨?_, ?_, ?_, ?_, ?_, ?_⟩ <;> decide

/-- C8: ReadAt returns 0 exactly on a degenerate request (non-positive
count or position at or past end of file) and otherwise clamps the
transfer to min(n, byteLength - position), never crossing byteLength. -/
theorem readAt_count (hdr : FileHeader) (dk : DiskStore) (into : Nat → Int) (n position : Int) :
    (readAt hdr dk into n position).1 =
      if n ≤ 0 ∨ position ≥ fileLengthOf hdr then 0
      else min n (fileLengthOf hdr - position) := by
  rw [readAt]
  dsimp only
  by_cases hdeg : n ≤ 0 ∨ position ≥ fileLengthOf hdr
  · rw [if_pos hdeg, if_pos hdeg]
  · rw [if_neg hdeg, if_neg hdeg]
    dsimp only
    by_cases hcl : position + n > fileLengthOf hdr
    · rw [if_pos hcl]
      omega
    · rw [if_neg hcl]
      omega

/-- C10: WriteAt never clamps the transfer count against byteLength: for
every n at least 0 it reports either 0 or exactly n bytes written. -/
theorem writeAt_zero_or_n (hdr : FileHeader) (dk : DiskStore) (m : BitMap)
    (seekPosition : Int) (src : Nat → Int) (n position : Int) (hn : 0 ≤ n) :
    (writeAt hdr dk m seekPosition src n position).1 = 0 ∨
      (writeAt hdr dk m seekPosition src n position).1 = n := by
  rw [writeAt]
  dsimp only
  rw [if_neg (by omega)]
  by_cases hseek : seekPosition ≥ fileLengthOf hdr
  · rw [if_pos hseek]
    by_cases hgrow : seekPosition + n > divRoundUp (fileLengthOf hdr) SectorSize * SectorSize
    · rw [if_pos hgrow]
      dsimp only
      by_cases h0 : fileLengthOf hdr + n = 0
      · rw [if_pos h0]; exact Or.inl rfl
      · rw [if_neg h0]; exact Or.inr rfl
    · rw [if_neg hgrow]
      dsimp only
      by_cases h0 : fileLengthOf hdr = 0
      · rw [if_pos h0]; exact Or.inl rfl
      · rw [if_neg h0]; exact Or.inr rfl
  · rw [if_neg hseek]
    dsimp only
    by_cases h0 : fileLengthOf hdr = 0
    · rw [if_pos h0]; exact Or.inl rfl
    · rw [if_neg h0]; exact Or.inr rfl

/-- C9: when WriteAt's growth path fires (cursor at or past end of file,
target past the space covered by the allocated sectors) and the index's
ExtendSpace fails for lack of free sectors, AllocateSpace discards the
boolean failure: WriteAt still sets byteLength to seekPosition + n,
leaves numSectors rolled back (no new space), reports all n bytes as
written with no error signal, and byteLength ends up larger than the
space covered by the allocated sectors. -/
theorem writeAt_swallows_extend_failure (hdr : FileHeader) (dk : DiskStore) (m : BitMap)
    (seekPosition : Int) (src : Nat → Int) (n position : Int)
    (hlen0 : 0 ≤ hdr.numBytes) (hseek : seekPosition ≥ hdr.numBytes) (hn : 1 ≤ n)
    (hgrow : seekPosition + n > divRoundUp hdr.numBytes SectorSize * SectorSize)
    (hnofree : bmNumClear m = 0)
    (hcons : hdr.numSectors = divRoundUp hdr.numBytes SectorSize) :
    (writeAt hdr dk m seekPosition src n position).1 = n ∧
    (writeAt hdr dk m seekPosition src n position).2.1.numBytes = seekPosition + n ∧
    (writeAt hdr dk m seekPosition src n position).2.1.numSectors = hdr.numSectors ∧
    (writeAt hdr dk m seekPosition src n position).2.2.2 = m ∧
    SectorSize * (writeAt hdr dk m seekPosition src n position).2.1.numSectors
      < (writeAt hdr dk m seekPosition src n position).2.1.numBytes := by
  have hss : SectorSize = (128 : Int) := rfl
  have hfl : fileLengthOf hdr = hdr.numBytes := rfl
  rw [writeAt]
  dsimp only
  rw [if_neg (by omega)]
  rw [if_pos (show seekPosition ≥ fileLengthOf hdr from hseek)]
  rw [if_pos (show seekPosition + n > divRoundUp (fileLengthOf hdr) SectorSize * SectorSize
    from hgrow)]
  have hsz1 : 1 ≤ seekPosition + n - divRoundUp (fileLengthOf hdr) SectorSize * SectorSize := by
    rw [hfl]; omega
  have hdru : divRoundUp (seekPosition + n - divRoundUp (fileLengthOf hdr) SectorSize * SectorSize)
      SectorSize
      = ((seekPosition + n - divRoundUp (fileLengthOf hdr) SectorSize * SectorSize) + 128 - 1)
        / 128 :=
    Int.tdiv_eq_ediv (by omega) (by omega)
  have hfail : extendSpace hdr dk m
      (seekPosition + n - divRoundUp (fileLengthOf hdr) SectorSize * SectorSize)
      = (some false, hdr, dk, m) :=
    extendSpace_nofree _ _ _ _ (by rw [hdru, hnofree]; push_cast; omega)
  rw [allocateSpace]
  dsimp only
  rw [hfail]
  dsimp only
  rw [if_neg (show ¬ (fileLengthOf hdr + n = 0) by rw [hfl]; omega)]
  refine ⟨rfl, rfl, rfl, rfl, ?_⟩
  show SectorSize * hdr.numSectors < seekPosition + n
  rw [hcons, hss]
  rw [hss] at hgrow
  omega

theorem cdiv_eq_ediv {a b : Int} (ha : 0 ≤ a) (hb : 0 ≤ b) : cdiv a b = a / b :=
  Int.tdiv_eq_ediv ha hb

theorem cmod_eq_emod {a b : Int} (ha : 0 ≤ a) (hb : 0 ≤ b) : cmod a b = a % b :=
  Int.tmod_eq_emod ha hb

theorem timeToSeek_fst (d : DiskSim) (ticks s : Int) :
    (timeToSeek d ticks s).1
      = |cdiv s SectorsPerTrack - cdiv d.lastSector SectorsPerTrack| * SeekTime := rfl

theorem timeToSeek_snd (d : DiskSim) (ticks s : Int) :
    (timeToSeek d ticks s).2
      = if cmod (ticks + (timeToSeek d ticks s).1) RotationTime > 0
        then RotationTime - cmod (ticks + (timeToSeek d ticks s).1) RotationTime
        else 0 := rfl

theorem timeToSeek_fst_eq (d : DiskSim) (ticks s : Int)
    (hl : 0 ≤ d.lastSector) (hs : 0 ≤ s) :
    (timeToSeek d ticks s).1 = |s / 32 - d.lastSector / 32| * 500 := by
  rw [timeToSeek_fst, cdiv_eq_ediv hs (by decide), cdiv_eq_ediv hl (by decide)]
  rfl

theorem timeToSeek_snd_eq (d : DiskSim) (ticks s : Int)
    (ht : 0 ≤ ticks) (hl : 0 ≤ d.lastSector) (hs : 0 ≤ s) :
    (timeToSeek d ticks s).2
      = if ticks % 500 > 0 then 500 - ticks % 500 else 0 := by
  have habs : 0 ≤ |s / 32 - d.lastSector / 32| := abs_nonneg _
  have hover : cmod (ticks + (timeToSeek d ticks s).1) RotationTime = ticks % 500 := by
    rw [timeToSeek_fst_eq d ticks s hl hs,
      cmod_eq_emod (by omega) (by decide)]
    show (ticks + |s / 32 - d.lastSector / 32| * 500) % 500 = ticks % 500
    omega
  rw [timeToSeek_snd, hover]
  rfl

theorem moduloDiff_eq (tgt cur : Int) (h1 : 0 ≤ tgt) (h2 : 0 ≤ cur) :
    moduloDiff tgt cur = ((tgt % 32 - cur % 32) + 32) % 32 := by
  have e1 : cmod tgt SectorsPerTrack = tgt % 32 := cmod_eq_emod h1 (by decide)
  have e2 : cmod cur SectorsPerTrack = cur % 32 := cmod_eq_emod h2 (by decide)
  have hin : 0 ≤ tgt % 32 - cur % 32 + 32 := by omega
  have e3 : cmod (tgt % 32 - cur % 32 + 32) (32 : Int) = (tgt % 32 - cur % 32 + 32) % 32 :=
    cmod_eq_emod hin (by decide)
  rw [moduloDiff, e1, e2]
  exact e3

theorem computeLatency_formula (d : DiskSim) (ticks s : Int) (w : Bool)
    (hns : ¬ trackBufApplies d ticks s w) (ht : 0 ≤ ticks) (hl : 0 ≤ d.lastSector)
    (hs : 0 ≤ s) :
    computeLatency d ticks s w =
      |s / 32 - d.lastSector / 32| * 500
        + ((if ticks % 500 > 0 then 500 - ticks % 500 else 0)
          + ((s % 32
              - ((ticks + |s / 32 - d.lastSector / 32| * 500
                  + (if ticks % 500 > 0 then 500 - ticks % 500 else 0)) / 500) % 32
              + 32) % 32) * 500)
        + 500 := by
  have habs : 0 ≤ |s / 32 - d.lastSector / 32| := abs_nonneg _
  have hrho : 0 ≤ (if ticks % 500 > 0 then 500 - ticks % 500 else 0) := by
    split <;> omega
  have hns2 : ¬ (w = false ∧ (timeToSeek d ticks s).1 = 0 ∧
      cdiv (ticks + (timeToSeek d ticks s).1 + (timeToSeek d ticks s).2 - d.bufferInit)
          RotationTime
        > moduloDiff s (cdiv d.bufferInit RotationTime)) := hns
  rw [computeLatency]
  rw [if_neg hns2]
  rw [timeToSeek_fst_eq d ticks s hl hs, timeToSeek_snd_eq d ticks s ht hl hs]
  have hta : cdiv (ticks + |s / 32 - d.lastSector / 32| * 500
      + (if ticks % 500 > 0 then 500 - ticks % 500 else 0)) RotationTime
      = (ticks + |s / 32 - d.lastSector / 32| * 500
        + (if ticks % 500 > 0 then 500 - ticks % 500 else 0)) / 500 :=
    cdiv_eq_ediv (by omega) (by decide)
  rw [hta, moduloDiff_eq s _ hs (by omega)]
  have hrt : RotationTime = (500 : Int) := rfl
  rw [hrt]

/-- C7 counterexample: from head at sector 0 at simulated time 0 with a
cold track buffer, a read of sector 32 has seek distance 1 and latency
16500 ticks, while a read of sector 66 has seek distance 2 and latency
only 1500 ticks; neither request satisfies the track-buffer shortcut, so
ComputeLatency is not monotone in seek distance as stated. -/
theorem computeLatency_not_monotone :
    (timeToSeek { active := false, lastSector := 0, bufferInit := 0 } 0 32).1 = 500 ∧
    (timeToSeek { active := false, lastSector := 0, bufferInit := 0 } 0 66).1 = 1000 ∧
    ¬ trackBufApplies { active := false, lastSector := 0, bufferInit := 0 } 0 32 false ∧
    ¬ trackBufApplies { active := false, lastSector := 0, bufferInit := 0 } 0 66 false ∧
    computeLatency { active := false, lastSector := 0, bufferInit := 0 } 0 66 false
      < computeLatency { active := false, lastSector := 0, bufferInit := 0 } 0 32 false := by
  refine ⟨rfl, rfl, ?_, ?_, ?_⟩ <;> decide

/-- C7 (amended): when the track-buffer shortcut condition holds the
latency is exactly one sector transfer time; a write never satisfies the
shortcut condition; and the latency is monotonically non-decreasing in
seek distance among requests aimed at the same in-track sector offset
(for requests with different in-track offsets the rotational term can
make a longer seek cheaper, as the counterexample shows). -/
theorem computeLatency_props :
    (∀ (d : DiskSim) (ticks s : Int) (w : Bool),
      trackBufApplies d ticks s w → computeLatency d ticks s w = RotationTime) ∧
    (∀ (d : DiskSim) (ticks s : Int), ¬ trackBufApplies d ticks s true) ∧
    (∀ (d : DiskSim) (ticks s1 s2 : Int) (w : Bool),
      0 ≤ ticks → 0 ≤ d.lastSector → 0 ≤ s1 → 0 ≤ s2 →
      cmod s1 SectorsPerTrack = cmod s2 SectorsPerTrack →
      ¬ trackBufApplies d ticks s1 w → ¬ trackBufApplies d ticks s2 w →
      (timeToSeek d ticks s1).1 ≤ (timeToSeek d ticks s2).1 →
      computeLatency d ticks s1 w ≤ computeLatency d ticks s2 w) := by
  refine ⟨?_, ?_, ?_⟩
  · intro d ticks s w htba
    obtain ⟨hw, h0, hcond⟩ := htba
    subst hw
    have hc2 : (false = false ∧ (timeToSeek d ticks s).1 = 0 ∧
        cdiv (ticks + (timeToSeek d ticks s).1 + (timeToSeek d ticks s).2 - d.bufferInit)
            RotationTime
          > moduloDiff s (cdiv d.bufferInit RotationTime)) := ⟨rfl, h0, hcond⟩
    rw [computeLatency]
    rw [if_pos hc2]
  · intro d ticks s htba
    cases htba.1
  · intro d ticks s1 s2 w ht hl hs1 hs2 hoff hn1 hn2 hseek
    rw [computeLatency_formula d ticks s1 w hn1 ht hl hs1,
      computeLatency_formula d ticks s2 w hn2 ht hl hs2]
    rw [timeToSeek_fst_eq d ticks s1 hl hs1, timeToSeek_fst_eq d ticks s2 hl hs2] at hseek
    rw [cmod_eq_emod hs1 (by decide), cmod_eq_emod hs2 (by decide)] at hoff
    have habs1 : 0 ≤ |s1 / 32 - d.lastSector / 32| := abs_nonneg _
    have habs2 : 0 ≤ |s2 / 32 - d.lastSector / 32| := abs_nonneg _
    have hoff32 : s1 % 32 = s2 % 32 := by
      have h1 : s1 % SectorsPerTrack = s1 % 32 := rfl
      have h2 : s2 % SectorsPerTrack = s2 % 32 := rfl
      rw [h1, h2] at hoff
      exact hoff
    split <;> omega

/-- C6: the device never accepts a second request while busy.  A
Read/Write request against a busy device is rejected by the fatal
assertion; an accepted request starts from an idle device and leaves it
busy; the completion step is the only operation taking the device from
busy back to idle; and the completion handler clears the busy flag before
the registered callback runs, so the callback observes an idle device. -/
theorem disk_single_outstanding (d : DiskSim) (ticks s : Int) :
    (d.active = true →
      diskStep d ticks (DiskOp.readReq s) = none ∧
        diskStep d ticks (DiskOp.writeReq s) = none) ∧
    (∀ d2, diskStep d ticks (DiskOp.readReq s) = some d2 →
      d.active = false ∧ d2.active = true) ∧
    (∀ d2, diskStep d ticks (DiskOp.writeReq s) = some d2 →
      d.active = false ∧ d2.active = true) ∧
    (∀ op d2, diskStep d ticks op = some d2 → d.active = true → d2.active = false →
      op = DiskOp.complete) ∧
    (handleInterrupt d).active = false := by
  have hread : ∀ d2, diskStep d ticks (DiskOp.readReq s) = some d2 →
      d.active = false ∧ d2.active = true := by
    intro d2 h
    by_cases ha : d.active
    · simp [diskStep, readRequest, ha] at h
    · by_cases hr : 0 ≤ s ∧ s < NumSectors
      · simp [diskStep, readRequest, ha, hr] at h
        refine ⟨by simpa using ha, ?_⟩
        rw [← h]
        rfl
      · simp [diskStep, readRequest, ha, hr] at h
  have hwrite : ∀ d2, diskStep d ticks (DiskOp.writeReq s) = some d2 →
      d.active = false ∧ d2.active = true := by
    intro d2 h
    by_cases ha : d.active
    · simp [diskStep, writeRequest, ha] at h
    · by_cases hr : 0 ≤ s ∧ s < NumSectors
      · simp [diskStep, writeRequest, ha, hr] at h
        refine ⟨by simpa using ha, ?_⟩
        rw [← h]
        rfl
      · simp [diskStep, writeRequest, ha, hr] at h
  refine ⟨?_, hread, hwrite, ?_, rfl⟩
  · intro ha
    constructor <;> simp [diskStep, readRequest, writeRequest, ha]
  · intro op d2 h hactive hidle
    cases op with
    | readReq s2 =>
      exfalso
      simp [diskStep, readRequest, hactive] at h
    | writeReq s2 =>
      exfalso
      simp [diskStep, writeRequest, hactive] at h
    | complete => rfl

theorem copyRange_apply (dst : Nat → Int) (off : Nat) (src : Nat → Int) (len k : Nat) :
    copyRange dst off src len k
      = if off ≤ k ∧ k < off + len then src (k - off) else dst k := rfl

theorem byteToSector_congr (hdr : FileHeader) (dk1 dk2 : DiskStore) (offset : Int)
    (h : dk1 (hdr.dataSectors (NumDirect - 1)) = dk2 (hdr.dataSectors (NumDirect - 1))) :
    byteToSector hdr dk1 offset = byteToSector hdr dk2 offset := by
  rw [byteToSector, byteToSector]
  by_cases hc : cdiv offset SectorSize < (NumDirect : Int) - 1
  · rw [if_pos hc, if_pos hc]
  · rw [if_neg hc, if_neg hc]
    show (dk1 (hdr.dataSectors (NumDirect - 1))) _ = (dk2 (hdr.dataSectors (NumDirect - 1))) _
    rw [h]

theorem writeSectorsLoop_untouched (hdr : FileHeader) (dkRef : DiskStore) (buf : Nat → Int)
    (fs : Int) :
    ∀ (cnt : Nat) (start : Int) (dk0 : DiskStore),
      dk0 (hdr.dataSectors (NumDirect - 1)) = dkRef (hdr.dataSectors (NumDirect - 1)) →
      (∀ l : Int, start ≤ l → l < start + cnt →
        hdr.dataSectors (NumDirect - 1) ≠ byteToSector hdr dkRef (l * SectorSize)) →
      ∀ t : Int,
        (∀ l : Int, start ≤ l → l < start + cnt →
          t ≠ byteToSector hdr dkRef (l * SectorSize)) →
        writeSectorsLoop hdr dk0 buf fs start cnt t = dk0 t := by
  intro cnt
  induction cnt with
  | zero =>
    intro start dk0 _ _ t _
    rfl
  | succ c ih =>
    intro start dk0 hag hstab t ht
    rw [writeSectorsLoop]
    have hbts : byteToSector hdr dk0 (start * SectorSize)
        = byteToSector hdr dkRef (start * SectorSize) :=
      byteToSector_congr _ _ _ _ hag
    have hs29 : hdr.dataSectors (NumDirect - 1)
        ≠ byteToSector hdr dk0 (start * SectorSize) := by
      rw [hbts]
      exact hstab start (le_refl _) (by push_cast; omega)
    have hag2 : (writeSector dk0 (byteToSector hdr dk0 (start * SectorSize))
          (fun k => buf (((start - fs) * SectorSize).toNat + k)))
          (hdr.dataSectors (NumDirect - 1))
        = dkRef (hdr.dataSectors (NumDirect - 1)) := by
      show (if hdr.dataSectors (NumDirect - 1) = byteToSector hdr dk0 (start * SectorSize)
        then _ else dk0 (hdr.dataSectors (NumDirect - 1)))
        = dkRef (hdr.dataSectors (NumDirect - 1))
      rw [if_neg hs29, hag]
    have hres := ih (start + 1)
      (writeSector dk0 (byteToSector hdr dk0 (start * SectorSize))
        (fun k => buf (((start - fs) * SectorSize).toNat + k)))
      hag2
      (fun l h1 h2 => hstab l (by omega) (by push_cast at h2 ⊢; omega))
      t
      (fun l h1 h2 => ht l (by omega) (by push_cast at h2 ⊢; omega))
    rw [hres]
    show (if t = byteToSector hdr dk0 (start * SectorSize) then _ else dk0 t) = dk0 t
    rw [if_neg (by rw [hbts]; exact ht start (le_refl _) (by push_cast; omega))]

theorem writeSectorsLoop_written (hdr : FileHeader) (dkRef : DiskStore) (buf : Nat → Int)
    (fs : Int) :
    ∀ (cnt : Nat) (start : Int) (dk0 : DiskStore),
      dk0 (hdr.dataSectors (NumDirect - 1)) = dkRef (hdr.dataSectors (NumDirect - 1)) →
      (∀ l : Int, start ≤ l → l < start + cnt →
        hdr.dataSectors (NumDirect - 1) ≠ byteToSector hdr dkRef (l * SectorSize)) →
      ∀ l0 : Int, start ≤ l0 → l0 < start + cnt →
        (∀ l : Int, start ≤ l → l < start + cnt → l ≠ l0 →
          byteToSector hdr dkRef (l * SectorSize) ≠ byteToSector hdr dkRef (l0 * SectorSize)) →
        writeSectorsLoop hdr dk0 buf fs start cnt (byteToSector hdr dkRef (l0 * SectorSize))
          = fun k => buf (((l0 - fs) * SectorSize).toNat + k) := by
  intro cnt
  induction cnt with
  | zero =>
    intro start dk0 _ _ l0 h1 h2 _
    exfalso
    push_cast at h2
    omega
  | succ c ih =>
    intro start dk0 hag hstab l0 hl1 hl2 hinj
    rw [writeSectorsLoop]
    have hbts : byteToSector hdr dk0 (start * SectorSize)
        = byteToSector hdr dkRef (start * SectorSize) :=
      byteToSector_congr _ _ _ _ hag
    have hs29 : hdr.dataSectors (NumDirect - 1)
        ≠ byteToSector hdr dk0 (start * SectorSize) := by
      rw [hbts]
      exact hstab start (le_refl _) (by push_cast; omega)
    have hag2 : (writeSector dk0 (byteToSector hdr dk0 (start * SectorSize))
          (fun k => buf (((start - fs) * SectorSize).toNat + k)))
          (hdr.dataSectors (NumDirect - 1))
        = dkRef (hdr.dataSectors (NumDirect - 1)) := by
      show (if hdr.dataSectors (NumDirect - 1) = byteToSector hdr dk0 (start * SectorSize)
        then _ else dk0 (hdr.dataSectors (NumDirect - 1)))
        = dkRef (hdr.dataSectors (NumDirect - 1))
      rw [if_neg hs29, hag]
    by_cases hstart : l0 = start
    · subst hstart
      have hrest := writeSectorsLoop_untouched hdr dkRef buf fs c (l0 + 1)
        (writeSector dk0 (byteToSector hdr dk0 (l0 * SectorSize))
          (fun k => buf (((l0 - fs) * SectorSize).toNat + k)))
        hag2
        (fun l h1 h2 => hstab l (by omega) (by push_cast at h2 ⊢; omega))
        (byteToSector hdr dkRef (l0 * SectorSize))
        (fun l h1 h2 =>
          (hinj l (by omega) (by push_cast at h2 ⊢; omega) (by omega)).symm)
      rw [hrest]
      show (if byteToSector hdr dkRef (l0 * SectorSize)
          = byteToSector hdr dk0 (l0 * SectorSize) then _ else dk0 _)
        = fun k => buf (((l0 - fs) * SectorSize).toNat + k)
      rw [if_pos (by rw [hbts])]
    · have hres := ih (start + 1)
        (writeSector dk0 (byteToSector hdr dk0 (start * SectorSize))
          (fun k => buf (((start - fs) * SectorSize).toNat + k)))
        hag2
        (fun l h1 h2 => hstab l (by omega) (by push_cast at h2 ⊢; omega))
        l0 (by omega) (by push_cast at hl2 ⊢; omega)
        (fun l h1 h2 hne => hinj l (by omega) (by push_cast at h2 ⊢; omega) hne)
      rw [hres]

theorem readAt_result (hdr : FileHeader) (dk : DiskStore) (into : Nat → Int)
    (n position : Int) (hn : 0 < n) (hpos : position < fileLengthOf hdr)
    (hclamp : position + n ≤ fileLengthOf hdr) :
    (readAt hdr dk into n position).1 = n ∧
    ∀ j : Nat, j < n.toNat →
      (readAt hdr dk into n position).2 j
        = readSector dk
            (byteToSector hdr dk
              ((divRoundDown position SectorSize
                + ((((position - divRoundDown position SectorSize * SectorSize).toNat + j)
                    / SectorSize.toNat : Nat) : Int)) * SectorSize))
            (((position - divRoundDown position SectorSize * SectorSize).toNat + j)
              % SectorSize.toNat) := by
  rw [readAt]
  rw [if_neg (by omega)]
  dsimp only
  rw [if_neg (by omega)]
  refine ⟨rfl, fun j hj => ?_⟩
  rw [copyRange_apply, if_pos ⟨Nat.zero_le j, by omega⟩, Nat.sub_zero]

theorem writeAt_inbounds (hdr : FileHeader) (dk : DiskStore) (m : BitMap)
    (seekPosition : Int) (src : Nat → Int) (n position : Int)
    (hn : 1 ≤ n) (hseek : seekPosition < hdr.numBytes) (hLpos : 0 < hdr.numBytes) :
    ∃ buf2 : Nat → Int,
      writeAt hdr dk m seekPosition src n position
        = (n, hdr,
          writeSectorsLoop hdr dk
            (copyRange buf2 (position - divRoundDown position SectorSize * SectorSize).toNat
              src n.toNat)
            (divRoundDown position SectorSize) (divRoundDown position SectorSize)
            (1 + divRoundDown (position + n - 1) SectorSize
              - divRoundDown position SectorSize).toNat,
          m) := by
  have hfl : fileLengthOf hdr = hdr.numBytes := rfl
  rw [writeAt]
  rw [if_neg (by omega)]
  rw [if_neg (show ¬ (seekPosition ≥ fileLengthOf hdr) by rw [hfl]; omega)]
  dsimp only
  rw [if_neg (show ¬ (fileLengthOf hdr = 0) by rw [hfl]; omega)]
  exact ⟨_, rfl⟩

theorem slice_index (fs : Int) (k : Nat) :
    ((fs + ((k / SectorSize.toNat : Nat) : Int) - fs) * SectorSize).toNat
      + k % SectorSize.toNat = k := by
  have h1 : fs + ((k / SectorSize.toNat : Nat) : Int) - fs
      = ((k / SectorSize.toNat : Nat) : Int) := by ring
  rw [h1]
  have hstn : SectorSize.toNat = 128 := rfl
  have hss : SectorSize = (128 : Int) := rfl
  rw [hstn, hss]
  omega

/-- C3: for an in-bounds range (position at least 0, n at least 1,
position + n at most byteLength), with the handle's cursor inside the
file (so the write takes the plain read-modify-write path) and a
well-formed pointer table (distinct logical blocks map to distinct
physical sectors in the spanned range, none of which is the indirect
pointer sector), WriteAt followed by ReadAt over the same range returns
exactly the n bytes written. -/
theorem writeAt_readAt_roundtrip (hdr : FileHeader) (dk : DiskStore) (m : BitMap)
    (seekPosition : Int) (src : Nat → Int) (n position : Int)
    (h0 : 0 ≤ position) (hn : 1 ≤ n) (hub : position + n ≤ hdr.numBytes)
    (hseek : seekPosition < hdr.numBytes)
    (hstab : ∀ i : Int, divRoundDown position SectorSize ≤ i →
      i ≤ divRoundDown (position + n - 1) SectorSize →
      hdr.dataSectors (NumDirect - 1) ≠ byteToSector hdr dk (i * SectorSize))
    (hinj : ∀ i j : Int, divRoundDown position SectorSize ≤ i →
      i ≤ divRoundDown (position + n - 1) SectorSize →
      divRoundDown position SectorSize ≤ j →
      j ≤ divRoundDown (position + n - 1) SectorSize → i ≠ j →
      byteToSector hdr dk (i * SectorSize) ≠ byteToSector hdr dk (j * SectorSize)) :
    (writeAt hdr dk m seekPosition src n position).1 = n ∧
    ∀ j : Nat, (j : Int) < n →
      (readAt hdr (writeAt hdr dk m seekPosition src n position).2.2.1
        (fun _ => 0) n position).2 j = src j := by
  have hfl : fileLengthOf hdr = hdr.numBytes := rfl
  have hssi : SectorSize = (128 : Int) := rfl
  have hstn : SectorSize.toNat = 128 := rfl
  have hfs : divRoundDown position SectorSize = position / 128 :=
    cdiv_eq_ediv h0 (by decide)
  have hlsE : divRoundDown (position + n - 1) SectorSize = (position + n - 1) / 128 :=
    cdiv_eq_ediv (by omega) (by decide)
  have hfsls : divRoundDown position SectorSize ≤ divRoundDown (position + n - 1) SectorSize := by
    rw [hfs, hlsE]; omega
  have hW : (((1 + divRoundDown (position + n - 1) SectorSize
      - divRoundDown position SectorSize).toNat : Int))
      = 1 + divRoundDown (position + n - 1) SectorSize - divRoundDown position SectorSize := by
    omega
  obtain ⟨buf2, hw⟩ := writeAt_inbounds hdr dk m seekPosition src n position hn hseek (by omega)
  rw [hw]
  refine ⟨rfl, fun j hj => ?_⟩
  show (readAt hdr
    (writeSectorsLoop hdr dk
      (copyRange buf2 (position - divRoundDown position SectorSize * SectorSize).toNat
        src n.toNat)
      (divRoundDown position SectorSize) (divRoundDown position SectorSize)
      (1 + divRoundDown (position + n - 1) SectorSize - divRoundDown position SectorSize).toNat)
    (fun _ => 0) n position).2 j = src j
  rw [(readAt_result hdr _ (fun _ => 0) n position (by omega) (by rw [hfl]; omega)
    (by rw [hfl]; omega)).2 j (by omega)]
  have hdk3S : (writeSectorsLoop hdr dk
      (copyRange buf2 (position - divRoundDown position SectorSize * SectorSize).toNat
        src n.toNat)
      (divRoundDown position SectorSize) (divRoundDown position SectorSize)
      (1 + divRoundDown (position + n - 1) SectorSize - divRoundDown position SectorSize).toNat)
      (hdr.dataSectors (NumDirect - 1)) = dk (hdr.dataSectors (NumDirect - 1)) :=
    writeSectorsLoop_untouched hdr dk _ _ _ _ dk rfl
      (fun l h1 h2 => hstab l h1 (by omega))
      (hdr.dataSectors (NumDirect - 1))
      (fun l h1 h2 => hstab l h1 (by omega))
  have hpo : 0 ≤ position - divRoundDown position SectorSize * SectorSize ∧
      position - divRoundDown position SectorSize * SectorSize < 128 := by
    rw [hfs, hssi]; omega
  have hKcast : (((position - divRoundDown position SectorSize * SectorSize).toNat + j : Nat) : Int)
      = position - divRoundDown position SectorSize * SectorSize + j := by
    omega
  have hi_up : divRoundDown position SectorSize
      + ((((position - divRoundDown position SectorSize * SectorSize).toNat + j)
          / SectorSize.toNat : Nat) : Int)
      ≤ divRoundDown (position + n - 1) SectorSize := by
    rw [hstn, hfs, hlsE, hssi] at *
    omega
  have hi_low : divRoundDown position SectorSize ≤ divRoundDown position SectorSize
      + ((((position - divRoundDown position SectorSize * SectorSize).toNat + j)
          / SectorSize.toNat : Nat) : Int) := by
    have hc := Int.natCast_nonneg
      (((position - divRoundDown position SectorSize * SectorSize).toNat + j) / SectorSize.toNat)
    omega
  have hbtsK : byteToSector hdr
      (writeSectorsLoop hdr dk
        (copyRange buf2 (position - divRoundDown position SectorSize * SectorSize).toNat
          src n.toNat)
        (divRoundDown position SectorSize) (divRoundDown position SectorSize)
        (1 + divRoundDown (position + n - 1) SectorSize - divRoundDown position SectorSize).toNat)
      ((divRoundDown position SectorSize
        + ((((position - divRoundDown position SectorSize * SectorSize).toNat + j)
            / SectorSize.toNat : Nat) : Int)) * SectorSize)
      = byteToSector hdr dk
        ((divRoundDown position SectorSize
          + ((((position - divRoundDown position SectorSize * SectorSize).toNat + j)
              / SectorSize.toNat : Nat) : Int)) * SectorSize) :=
    byteToSector_congr hdr _ dk _ hdk3S
  rw [hbtsK]
  rw [readSector]
  rw [writeSectorsLoop_written hdr dk _ _ _ _ dk rfl
    (fun l h1 h2 => hstab l h1 (by omega))
    _ hi_low (by omega)
    (fun l h1 h2 hne => hinj l _ h1 (by omega) hi_low hi_up hne)]
  show copyRange buf2 (position - divRoundDown position SectorSize * SectorSize).toNat
      src n.toNat
      (((divRoundDown position SectorSize
          + ((((position - divRoundDown position SectorSize * SectorSize).toNat + j)
              / SectorSize.toNat : Nat) : Int)
          - divRoundDown position SectorSize) * SectorSize).toNat
        + ((position - divRoundDown position SectorSize * SectorSize).toNat + j)
          % SectorSize.toNat)
    = src j
  rw [slice_index]
  rw [copyRange_apply, if_pos ⟨Nat.le_add_right _ _, by omega⟩, Nat.add_sub_cancel_left]

/-- C4 counterexample: with exactly 30 free sectors, Allocate of a
30-sector file (double-level) reports success — its check only counts the
30 data sectors, not the extra indirect-block sector — so the final Find
fails and stores -1 in the indirect block, and the immediate Deallocate
hits the fatal Test assertion on sector -1 instead of restoring the
bitmap. -/
theorem allocate_deallocate_counterexample :
    (allocate ⟨0, 0, fun _ => 0⟩ (fun _ _ => 0) ⟨30, fun _ => false⟩ 3840).1 = true ∧
    (deallocate (allocate ⟨0, 0, fun _ => 0⟩ (fun _ _ => 0) ⟨30, fun _ => false⟩ 3840).2.1
      (allocate ⟨0, 0, fun _ => 0⟩ (fun _ _ => 0) ⟨30, fun _ => false⟩ 3840).2.2.1
      (allocate ⟨0, 0, fun _ => 0⟩ (fun _ _ => 0) ⟨30, fun _ => false⟩ 3840).2.2.2).isSome
      = false := by
  constructor <;> decide

theorem failure_state_effects_witness :
    extendSpace ⟨0, 0, fun _ => 0⟩ (fun _ _ => 0) ⟨4, fun _ => true⟩ 128
      = (some false, ⟨0, 0, fun _ => 0⟩, (fun _ _ => 0), ⟨4, fun _ => true⟩) ∧
    allocate ⟨0, 0, fun _ => 0⟩ (fun _ _ => 0) ⟨4, fun _ => true⟩ 128
      = (false, ⟨128, divRoundUp 128 SectorSize, fun _ => 0⟩, (fun _ _ => 0),
          ⟨4, fun _ => true⟩) :=
  ⟨(failure_state_effects ⟨0, 0, fun _ => 0⟩ (fun _ _ => 0) ⟨4, fun _ => true⟩ 128 128).1
      (by decide),
    (failure_state_effects ⟨0, 0, fun _ => 0⟩ (fun _ _ => 0) ⟨4, fun _ => true⟩ 128 128).2.2
      (by decide)⟩

theorem writeAt_readAt_roundtrip_witness :
    (writeAt ⟨200, 2, fun j => if j = 0 then 3 else if j = 1 then 5 else -1⟩ (fun _ _ => 0)
      ⟨4, fun _ => false⟩ 0 (fun j => (j : Int) + 10) 2 127).1 = 2 ∧
    (readAt ⟨200, 2, fun j => if j = 0 then 3 else if j = 1 then 5 else -1⟩
      (writeAt ⟨200, 2, fun j => if j = 0 then 3 else if j = 1 then 5 else -1⟩ (fun _ _ => 0)
        ⟨4, fun _ => false⟩ 0 (fun j => (j : Int) + 10) 2 127).2.2.1
      (fun _ => 0) 2 127).2 0 = 10 ∧
    (readAt ⟨200, 2, fun j => if j = 0 then 3 else if j = 1 then 5 else -1⟩
      (writeAt ⟨200, 2, fun j => if j = 0 then 3 else if j = 1 then 5 else -1⟩ (fun _ _ => 0)
        ⟨4, fun _ => false⟩ 0 (fun j => (j : Int) + 10) 2 127).2.2.1
      (fun _ => 0) 2 127).2 1 = 11 := by
  have h := writeAt_readAt_roundtrip
    ⟨200, 2, fun j => if j = 0 then 3 else if j = 1 then 5 else -1⟩ (fun _ _ => 0)
    ⟨4, fun _ => false⟩ 0 (fun j => (j : Int) + 10) 2 127
    (by decide) (by decide) (by decide) (by decide)
    (by
      intro i h1 h2
      have e1 : divRoundDown 127 SectorSize = 0 := by decide
      have e2 : divRoundDown (127 + 2 - 1) SectorSize = 1 := by decide
      rw [e1] at h1
      rw [e2] at h2
      have hi : i = 0 ∨ i = 1 := by omega
      rcases hi with rfl | rfl <;> decide)
    (by
      intro i j h1 h2 h3 h4 hne
      have e1 : divRoundDown 127 SectorSize = 0 := by decide
      have e2 : divRoundDown (127 + 2 - 1) SectorSize = 1 := by decide
      rw [e1] at h1 h3
      rw [e2] at h2 h4
      have hi : i = 0 ∨ i = 1 := by omega
      have hj : j = 0 ∨ j = 1 := by omega
      rcases hi with rfl | rfl <;> rcases hj with rfl | rfl <;>
        first
          | exact absurd rfl hne
          | decide)
  exact ⟨h.1, h.2 0 (by decide), h.2 1 (by decide)⟩

theorem allocate_deallocate_roundtrip_witness :
    (allocate ⟨0, 0, fun _ => 0⟩ (fun _ _ => 0) ⟨4, fun _ => false⟩ 256).1 = true ∧
    deallocate (allocate ⟨0, 0, fun _ => 0⟩ (fun _ _ => 0) ⟨4, fun _ => false⟩ 256).2.1
      (allocate ⟨0, 0, fun _ => 0⟩ (fun _ _ => 0) ⟨4, fun _ => false⟩ 256).2.2.1
      (allocate ⟨0, 0, fun _ => 0⟩ (fun _ _ => 0) ⟨4, fun _ => false⟩ 256).2.2.2
      = some ⟨4, fun _ => false⟩ :=
  allocate_deallocate_roundtrip ⟨0, 0, fun _ => 0⟩ (fun _ _ => 0) ⟨4, fun _ => false⟩ 256
    (by decide) (by decide) (by decide)

theorem byteToSector_allocate_consistent_witness :
    (allocate ⟨0, 0, fun _ => 0⟩ (fun _ _ => 0) ⟨4, fun _ => false⟩ 256).1 = true ∧
    byteToSector (allocate ⟨0, 0, fun _ => 0⟩ (fun _ _ => 0) ⟨4, fun _ => false⟩ 256).2.1
      (allocate ⟨0, 0, fun _ => 0⟩ (fun _ _ => 0) ⟨4, fun _ => false⟩ 256).2.2.1 130
      = allocatedDataSector ⟨4, fun _ => false⟩ (divRoundUp 256 SectorSize).toNat
          (cdiv 130 SectorSize).toNat := by
  have h := byteToSector_allocate_consistent ⟨0, 0, fun _ => 0⟩ (fun _ _ => 0)
    ⟨4, fun _ => false⟩ 256 (by decide) (by decide) (by decide)
  exact ⟨h.1, h.2 130 (by decide) (by decide)⟩

theorem disk_single_outstanding_witness :
    diskStep ⟨true, 0, 0⟩ 0 (DiskOp.readReq 3) = none ∧
    diskStep ⟨true, 0, 0⟩ 0 (DiskOp.writeReq 3) = none ∧
    ((⟨false, 0, 0⟩ : DiskSim).active = false ∧ (⟨true, 3, 0⟩ : DiskSim).active = true) ∧
    (handleInterrupt ⟨true, 0, 0⟩).active = false := by
  refine ⟨?_, ?_, ?_, ?_⟩
  · exact ((disk_single_outstanding ⟨true, 0, 0⟩ 0 3).1 rfl).1
  · exact ((disk_single_outstanding ⟨true, 0, 0⟩ 0 3).1 rfl).2
  · exact (disk_single_outstanding ⟨false, 0, 0⟩ 0 3).2.1 ⟨true, 3, 0⟩ rfl
  · exact (disk_single_outstanding ⟨true, 0, 0⟩ 0 3).2.2.2.2

theorem computeLatency_props_witness :
    computeLatency ⟨false, 5, 0⟩ 100000 5 false = RotationTime ∧
    ¬ trackBufApplies ⟨false, 5, 0⟩ 100000 5 true ∧
    computeLatency ⟨false, 0, 0⟩ 0 32 false ≤ computeLatency ⟨false, 0, 0⟩ 0 64 false := by
  refine ⟨?_, ?_, ?_⟩
  · exact computeLatency_props.1 ⟨false, 5, 0⟩ 100000 5 false (by decide)
  · exact computeLatency_props.2.1 ⟨false, 5, 0⟩ 100000 5
  · exact computeLatency_props.2.2 ⟨false, 0, 0⟩ 0 32 64 false (by decide) (by decide)
      (by decide) (by decide) (by decide) (by decide) (by decide) (by decide)

theorem writeAt_swallows_extend_failure_witness :
    (writeAt ⟨0, 0, fun _ => -1⟩ (fun _ _ => 0) ⟨4, fun _ => true⟩ 0 (fun _ => 7) 3 0).1 = 3 ∧
    (writeAt ⟨0, 0, fun _ => -1⟩ (fun _ _ => 0) ⟨4, fun _ => true⟩ 0 (fun _ => 7) 3 0).2.1.numBytes
      = 0 + 3 ∧
    (writeAt ⟨0, 0, fun _ => -1⟩ (fun _ _ => 0) ⟨4, fun _ => true⟩ 0 (fun _ => 7) 3 0).2.1.numSectors
      = (⟨0, 0, fun _ => -1⟩ : FileHeader).numSectors ∧
    (writeAt ⟨0, 0, fun _ => -1⟩ (fun _ _ => 0) ⟨4, fun _ => true⟩ 0 (fun _ => 7) 3 0).2.2.2
      = ⟨4, fun _ => true⟩ ∧
    SectorSize *
      (writeAt ⟨0, 0, fun _ => -1⟩ (fun _ _ => 0) ⟨4, fun _ => true⟩ 0 (fun _ => 7) 3 0).2.1.numSectors
      < (writeAt ⟨0, 0, fun _ => -1⟩ (fun _ _ => 0) ⟨4, fun _ => true⟩ 0 (fun _ => 7) 3 0).2.1.numBytes :=
  writeAt_swallows_extend_failure ⟨0, 0, fun _ => -1⟩ (fun _ _ => 0) ⟨4, fun _ => true⟩ 0
    (fun _ => 7) 3 0 (by decide) (by decide) (by decide) (by decide) (by decide) (by decide)

theorem writeAt_zero_or_n_witness :
    (writeAt ⟨200, 2, fun _ => 3⟩ (fun _ _ => 0) ⟨4, fun _ => false⟩ 300 (fun _ => 7) 5 0).1 = 0 ∨
    (writeAt ⟨200, 2, fun _ => 3⟩ (fun _ _ => 0) ⟨4, fun _ => false⟩ 300 (fun _ => 7) 5 0).1 = 5 :=
  writeAt_zero_or_n ⟨200, 2, fun _ => 3⟩ (fun _ _ => 0) ⟨4, fun _ => false⟩ 300 (fun _ => 7) 5 0
    (by decide)

end Nachos
